import Mathlib

/-!
Verification of the request-resolution and proxy-forwarding engine of the
mock-server repository, as a shallow embedding in Lean 4.

Embedded source files:
  * `src/code/services/criteria-evaluator.service.js` (validateCriteria,
    evaluateCriteria, DANGEROUS_PATTERNS)
  * `src/code/services/sqlite.service.js` (getRuta)
  * `src/code/middlewares/routes.middleware.js` (checkRoute condition
    resolution, safeJsonParse, kind dispatch)
  * the proxy middleware (findMatchingFallback, sendFallbackResponse,
    proxyHandler timeout/error single-fire logic)
  * the semaphore service (addToListAndWait, wakeUp, getList)

External platform facilities (the JavaScript `RegExp` engine, `JSON.parse`,
`new Function` syntax checking and the `vm` sandbox) are modelled either by
explicit oracle parameters or, where a claim needs concrete evaluation, by
small executable models of the exact fragment the configuration data uses.
-/

/-! ## JavaScript string primitives used by the embedded code -/

/-- ASCII whitespace as recognised by `String.prototype.trim` and by the
`\s` class of JavaScript regular expressions (ASCII fragment). -/
def jsWs (c : Char) : Bool :=
  c == ' ' || c == '\t' || c == '\n' || c == '\r' || c == '\x0b' || c == '\x0c'

/-- Model of `String.prototype.trim` (ASCII whitespace fragment). -/
def jsTrim (s : String) : String :=
  ⟨((s.data.dropWhile jsWs).reverse.dropWhile jsWs).reverse⟩

/-- Model of `url.split("?")[0]`: the prefix of the string before the
first question mark. -/
def stripQuery (s : String) : String :=
  ⟨s.data.takeWhile (fun c => c != '?')⟩

/-- Model of JavaScript `Number(s)` restricted to the nonnegative decimal
strings the route store uses for status codes; `none` models `NaN`. -/
def jsNumber (s : String) : Option Nat :=
  if s.data ≠ [] ∧ s.data.all (·.isDigit) then
    some (s.data.foldl (fun n c => n * 10 + (c.toNat - 48)) 0)
  else none

/-! ## Criteria evaluator: the dangerous-pattern denylist

Each of the 21 regular expressions of `DANGEROUS_PATTERNS` is one of four
shapes: a plain (case-insensitive) substring, a keyword followed by `\s*(`,
a keyword followed by `\s+`, or a `\b`-delimited word.  The scanners below
implement exactly those four shapes over the character list of the text. -/

/-- `hasSub needle hay`: `needle` occurs as a contiguous substring of
`hay` (the shape of patterns such as `/process\./i`). -/
def hasSub (needle : List Char) (hay : List Char) : Bool :=
  match hay with
  | [] => needle.isEmpty
  | c :: t => needle.isPrefixOf (c :: t) || hasSub needle t

/-- `kwParen kw hay`: some occurrence of `kw` in `hay` is followed by
optional whitespace and an opening parenthesis (the shape of
`/require\s*\(/i`, `/eval\s*\(/i`, the timer patterns, ...). -/
def kwParen (kw : List Char) (hay : List Char) : Bool :=
  match hay with
  | [] => false
  | c :: t =>
      (kw.isPrefixOf (c :: t) &&
        (match ((c :: t).drop kw.length).dropWhile jsWs with
         | '(' :: _ => true
         | _ => false))
      || kwParen kw t

/-- `kwWs kw hay`: some occurrence of `kw` in `hay` is followed by at
least one whitespace character (the shape of `/import\s+/i`). -/
def kwWs (kw : List Char) (hay : List Char) : Bool :=
  match hay with
  | [] => false
  | c :: t =>
      (kw.isPrefixOf (c :: t) &&
        (match (c :: t).drop kw.length with
         | d :: _ => jsWs d
         | [] => false))
      || kwWs kw t

/-- JavaScript word character (`\w`). -/
def isWordChar (c : Char) : Bool := c.isAlphanum || c == '_'

/-- Auxiliary scanner for `\b`-delimited words, carrying the previous
character of the text. -/
def wbScan (kw : List Char) (prev : Option Char) (hay : List Char) : Bool :=
  match hay with
  | [] => false
  | c :: t =>
      (kw.isPrefixOf (c :: t) &&
        (match prev with
         | some p => !isWordChar p
         | none => true) &&
        (match (c :: t).drop kw.length with
         | d :: _ => !isWordChar d
         | [] => true))
      || wbScan kw (some c) t

/-- `hasWord kw hay`: `kw` occurs in `hay` delimited by word boundaries
(the shape of `/\bfs\b/i`, `/\bexec\b/i`, ...). -/
def hasWord (kw : List Char) (hay : List Char) : Bool := wbScan kw none hay

/-- The text lower-cased, implementing the `i` flag of the patterns. -/
def lowerList (s : String) : List Char := s.data.map Char.toLower

/-- The `DANGEROUS_PATTERNS` denylist of
`criteria-evaluator.service.js`: true iff any of the 21 patterns matches
the text.  All patterns carry the `i` flag except `/this\./`, which is
tested on the raw text. -/
def anyDangerous (t : String) : Bool :=
  let l := lowerList t
  let raw := t.data
  kwParen "require".data l || kwWs "import".data l || kwParen "import".data l ||
  kwParen "eval".data l || kwParen "function".data l ||
  kwParen "settimeout".data l || kwParen "setinterval".data l ||
  kwParen "setimmediate".data l ||
  hasSub "process.".data l || hasSub "global.".data l ||
  hasSub "globalthis.".data l || hasSub "this.".data raw ||
  hasSub "constructor".data l || hasSub "__proto__".data l ||
  hasSub "prototype".data l || hasSub "reflect.".data l ||
  hasSub "proxy".data l ||
  hasWord "fs".data l || hasWord "child_process".data l ||
  hasWord "exec".data l || hasWord "spawn".data l

/-! ## Criteria evaluator: validation and evaluation -/

/-- Result of `validateCriteria`: the `{valid, error?}` object. -/
structure VResult where
  valid : Bool
  error : Option String
deriving DecidableEq, Repr

/-- `validateCriteria` of `criteria-evaluator.service.js`.  The dry
compile `new Function('return ' + trimmed)` is an external JavaScript
parser, modelled by the oracle `compiles`; everything before it is
embedded executably.  `none` models a missing / non-string argument
(rejected by the `!expression || typeof expression !== 'string'` guard),
and the empty string is likewise rejected by that guard. -/
def validateCriteria (compiles : String → Bool) (expr : Option String) : VResult :=
  match expr with
  | none => ⟨false, some "La expresion es requerida"⟩
  | some e =>
    if e = "" then ⟨false, some "La expresion es requerida"⟩
    else
      let t := jsTrim e
      if t.data.length = 0 then ⟨false, some "La expresion esta vacia"⟩
      else if t.data.length > 2000 then ⟨false, some "La expresion excede el limite"⟩
      else if anyDangerous t then ⟨false, some "La expresion contiene patrones no permitidos"⟩
      else if compiles t then ⟨true, none⟩
      else ⟨false, some "Error de sintaxis"⟩

/-- A JavaScript value returned by the sandbox, coarse enough to define
truthiness (`Boolean(result)`). -/
inductive JsVal where
  | undef
  | nullv
  | bool (b : Bool)
  | num (n : Int)
  | str (s : String)
  | objv
deriving DecidableEq, Repr

/-- JavaScript `Boolean(v)` coercion on the modelled values. -/
def jsTruthy : JsVal → Bool
  | .undef => false
  | .nullv => false
  | .bool b => b
  | .num n => n != 0
  | .str s => s != ""
  | .objv => true

/-- Outcome of `vm.runInContext(expression, vmContext, {timeout: 100})`:
a value, a thrown error, or expiry of the 100ms budget (which `vm`
reports by throwing; both reach the same `catch`). -/
inductive VmOutcome where
  | ok (v : JsVal)
  | threw (msg : String)
  | timedOut
deriving DecidableEq, Repr

/-- Result of `evaluateCriteria`: the `{success, result, error?}` object. -/
structure EvalResult where
  success : Bool
  result : Bool
  error : Option String
deriving DecidableEq, Repr

/-- `evaluateCriteria` of `criteria-evaluator.service.js`.  The sandboxed
execution against the frozen request view is modelled by the oracle
`run` (the request view is fixed inside the oracle); `compiles` is the
syntax-check oracle of `validateCriteria`.  Being a total Lean function,
it returns an `EvalResult` on every input: the thrown / timed-out
outcomes of the sandbox are folded into the `catch` branch exactly as the
source does. -/
def evaluateCriteria (compiles : String → Bool) (run : String → VmOutcome)
    (expr : Option String) : EvalResult :=
  let v := validateCriteria compiles expr
  if v.valid then
    match expr with
    | none => ⟨false, false, v.error⟩
    | some e =>
      match run e with
      | .ok val => ⟨true, jsTruthy val, none⟩
      | .threw msg => ⟨false, false, some msg⟩
      | .timedOut => ⟨false, false, some "Script execution timed out."⟩
  else ⟨false, false, v.error⟩

/-! ## Lemmas about validation -/

/-- A rejected expression always carries an error message. -/
theorem validateCriteria_invalid_error (compiles : String → Bool) (e : Option String)
    (h : (validateCriteria compiles e).valid = false) :
    (validateCriteria compiles e).error.isSome = true := by
  cases e with
  | none => rfl
  | some s =>
    simp only [validateCriteria] at h ⊢
    split_ifs at h ⊢ <;> simp_all

/-- **C2.** For every expression and every request view (folded into the
`run` oracle), `evaluateCriteria` never propagates an exception: being a
total function, it always returns an `EvalResult`, and that result is
either a clean success (validation passed and the sandbox produced a
value whose boolean coercion is reported) or the safe failure shape
`success = false, result = false` with an error message — covering
validation failure, a sandbox throw, and expiry of the 100ms budget. -/
theorem evaluateCriteria_never_throws (compiles : String → Bool)
    (run : String → VmOutcome) (expr : Option String) :
    (let r := evaluateCriteria compiles run expr
     (r.success = false ∧ r.result = false ∧ r.error.isSome = true) ∨
     (r.success = true ∧ r.error = none ∧
       (validateCriteria compiles expr).valid = true ∧
       ∃ e v, expr = some e ∧ run e = VmOutcome.ok v ∧ r.result = jsTruthy v)) := by
  cases expr with
  | none =>
    left
    simp [evaluateCriteria, validateCriteria]
  | some e =>
    by_cases hv : (validateCriteria compiles (some e)).valid = true
    · cases hrun : run e with
      | ok v =>
        right
        refine ⟨?_, ?_, hv, e, v, rfl, hrun, ?_⟩ <;> simp [evaluateCriteria, hv, hrun]
      | threw m =>
        left
        simp [evaluateCriteria, hv, hrun]
      | timedOut =>
        left
        simp [evaluateCriteria, hv, hrun]
    · left
      have hv' : (validateCriteria compiles (some e)).valid = false := by
        simpa using hv
      have herr := validateCriteria_invalid_error compiles (some e) hv'
      simp [evaluateCriteria, hv', herr]

/-! ## C7: what `validateCriteria` rejects -/

/-- Syntax-check oracle for the counterexample: the JavaScript parser
accepts `new Function('return true')`, which is all the counterexample
needs. -/
def acceptsTrue : String → Bool := fun s => s == "true"

/-- A 2001-character expression: `true` followed by 1997 spaces.  Its raw
length exceeds 2000 but its trimmed length is 4. -/
def longTrue : String := ⟨"true".data ++ List.replicate 1997 ' '⟩

theorem dropWhile_cons_false (p : Char → Bool) (a : Char) (l : List Char)
    (h : p a = false) : List.dropWhile p (a :: l) = a :: l := by
  simp [List.dropWhile_cons, h]

theorem dropWhile_spaces (n : Nat) (l : List Char) :
    ((List.replicate n ' ') ++ l).dropWhile jsWs = l.dropWhile jsWs := by
  induction n with
  | zero => simp
  | succ n ih =>
    simp [List.replicate_succ, List.dropWhile_cons, (by decide : jsWs ' ' = true), ih]

theorem longTrue_len : longTrue.length = 2001 := by
  have h : longTrue.length = ("true".data ++ List.replicate 1997 ' ').length := rfl
  rw [h, List.length_append, List.length_replicate]
  decide

theorem jsTrim_longTrue : jsTrim longTrue = "true" := by
  have h1 : longTrue.data.dropWhile jsWs = 't' :: (['r', 'u', 'e'] ++ List.replicate 1997 ' ') :=
    dropWhile_cons_false jsWs 't' (['r', 'u', 'e'] ++ List.replicate 1997 ' ') rfl
  have h2 : jsTrim longTrue =
      ⟨((('t' :: (['r', 'u', 'e'] ++ List.replicate 1997 ' ')).reverse).dropWhile jsWs).reverse⟩ := by
    rw [jsTrim, h1]
  rw [h2]
  have h3 : ('t' :: (['r', 'u', 'e'] ++ List.replicate 1997 ' ')).reverse
      = List.replicate 1997 ' ' ++ ['e', 'u', 'r', 't'] := by
    have h4 : ('t' :: (['r', 'u', 'e'] ++ List.replicate 1997 ' '))
        = ['t', 'r', 'u', 'e'] ++ List.replicate 1997 ' ' := rfl
    rw [h4, List.reverse_append, List.reverse_replicate]
    rfl
  rw [h3, dropWhile_spaces]
  rfl

/-- **C7, counterexample.** The claim says every input whose length
exceeds 2000 characters is rejected.  `longTrue` has raw length 2001,
yet `validateCriteria` trims first and accepts it: the length (and
denylist) checks run on the trimmed text, not the raw input. -/
theorem validateCriteria_untrimmed_length_ce :
    longTrue.length = 2001 ∧
    (validateCriteria acceptsTrue (some longTrue)).valid = true := by
  refine ⟨longTrue_len, ?_⟩
  have hne : longTrue ≠ "" := by
    intro h
    have h2 := longTrue_len
    rw [h] at h2
    exact absurd h2 (by decide)
  simp only [validateCriteria]
  rw [if_neg hne]
  simp only [jsTrim_longTrue]
  decide

/-- **C7 (amended).** `validateCriteria` returns `valid = false` (with an
error message) for every input whose trimmed text is empty, whose trimmed
length exceeds 2000 characters, or whose trimmed text matches any pattern
of the dangerous-construct denylist; the denylist check runs before (and
independently of) the syntax-compilation oracle, as the quantification
over `compiles` shows. -/
theorem validateCriteria_rejects_trimmed (compiles : String → Bool) (s : String)
    (h : (jsTrim s).data.length = 0 ∨ 2000 < (jsTrim s).data.length ∨
      anyDangerous (jsTrim s) = true) :
    (validateCriteria compiles (some s)).valid = false ∧
    (validateCriteria compiles (some s)).error.isSome = true := by
  have hv : (validateCriteria compiles (some s)).valid = false := by
    simp only [validateCriteria]
    split_ifs with h1 h2 h3 h4 h5 <;> first
      | rfl
      | (exfalso
         rcases h with h | h | h
         · exact h2 h
         · exact h3 (by omega)
         · exact h4 h)
  exact ⟨hv, validateCriteria_invalid_error compiles (some s) hv⟩

/-- Witness for C7 (amended): the whitespace-only input `" "` is
rejected. -/
theorem validateCriteria_rejects_trimmed_witness :
    (validateCriteria (fun _ => true) (some " ")).valid = false ∧
    (validateCriteria (fun _ => true) (some " ")).error.isSome = true :=
  validateCriteria_rejects_trimmed (fun _ => true) " " (Or.inl (by decide))

/-! ## Rule matcher: `getRuta` of `sqlite.service.js` -/

/-- A row of the `rutas` table, restricted to the columns `getRuta`
consults.  `activo` and `isRegex` fold the SQL `IS NULL` defaults
(`activo IS NULL OR activo = 1`, `isRegex IS NULL OR isRegex = 0`) into
booleans; `orden` is `none` when the column is NULL. -/
structure Ruta where
  id : Nat
  tipo : String
  ruta : String
  isRegex : Bool
  activo : Bool
  orden : Option Nat
  tiporespuesta : String
deriving DecidableEq, Repr

/-- `COALESCE(orden, 999999)` of the two ORDER BY clauses. -/
def ordenKey (r : Ruta) : Nat := r.orden.getD 999999

/-- `CASE WHEN tipo = ? THEN 0 ELSE 1 END`: exact-method rules sort
before `any` rules. -/
def exactKeyRank (tipo : String) (r : Ruta) : Nat := if r.tipo = tipo then 0 else 1

/-- Sort key of the exact-match query: method rank first, then priority. -/
def exactKey (tipo : String) (r : Ruta) : Nat × Nat := (exactKeyRank tipo r, ordenKey r)

/-- Strict lexicographic order on sort keys. -/
def keyLt (a b : Nat × Nat) : Prop := a.1 < b.1 ∨ (a.1 = b.1 ∧ a.2 < b.2)

/-- Reflexive lexicographic order on sort keys. -/
def keyLe (a b : Nat × Nat) : Prop := a.1 < b.1 ∨ (a.1 = b.1 ∧ a.2 ≤ b.2)

instance (a b : Nat × Nat) : Decidable (keyLt a b) := by
  unfold keyLt
  exact inferInstance

instance (a b : Nat × Nat) : Decidable (keyLe a b) := by
  unfold keyLe
  exact inferInstance

theorem keyLe_refl (a : Nat × Nat) : keyLe a a := Or.inr ⟨rfl, Nat.le_refl _⟩

theorem keyLe_of_lt (a b : Nat × Nat) (h : keyLt a b) : keyLe a b := by
  rcases h with h | ⟨h1, h2⟩
  · exact Or.inl h
  · exact Or.inr ⟨h1, Nat.le_of_lt h2⟩

theorem keyLe_of_not_lt (a b : Nat × Nat) (h : ¬ keyLt a b) : keyLe b a := by
  unfold keyLt at h
  push_neg at h
  rcases Nat.lt_trichotomy b.1 a.1 with h1 | h1 | h1
  · exact Or.inl h1
  · exact Or.inr ⟨h1, h.2 h1.symm⟩
  · exact absurd h1 (Nat.not_lt.mpr h.1)

theorem keyLe_trans (a b c : Nat × Nat) (hab : keyLe a b) (hbc : keyLe b c) :
    keyLe a c := by
  rcases hab with h | ⟨h1, h2⟩ <;> rcases hbc with g | ⟨g1, g2⟩
  · exact Or.inl (Nat.lt_trans h g)
  · exact Or.inl (g1 ▸ h)
  · exact Or.inl (h1 ▸ g)
  · exact Or.inr ⟨h1.trans g1, Nat.le_trans h2 g2⟩

/-- The row `db.get` returns for `ORDER BY key ASC LIMIT 1`: the first
row of minimal key (SQLite leaves the order of key-ties unspecified; the
model resolves them to the first row, a deterministic refinement). -/
def pickMin (key : Ruta → Nat × Nat) (r : Ruta) : List Ruta → Ruta
  | [] => r
  | x :: l => if keyLt (key x) (key r) then pickMin key x l else pickMin key r l

theorem pickMin_spec (key : Ruta → Nat × Nat) :
    ∀ (l : List Ruta) (r : Ruta),
      (pickMin key r l = r ∨ pickMin key r l ∈ l) ∧
      keyLe (key (pickMin key r l)) (key r) ∧
      ∀ x ∈ l, keyLe (key (pickMin key r l)) (key x) := by
  intro l
  induction l with
  | nil =>
    intro r
    exact ⟨Or.inl rfl, keyLe_refl _, by simp⟩
  | cons x t ih =>
    intro r
    by_cases h : keyLt (key x) (key r)
    · have hx := ih x
      refine ⟨?_, ?_, ?_⟩
      · rcases hx.1 with h1 | h1
        · exact Or.inr (by simp [pickMin, h, h1])
        · exact Or.inr (by simp [pickMin, h, h1])
      · have h2 : keyLe (key (pickMin key r (x :: t))) (key x) := by
          simpa [pickMin, h] using hx.2.1
        exact keyLe_trans _ _ _ h2 (keyLe_of_lt _ _ h)
      · intro y hy
        rcases List.mem_cons.mp hy with h1 | h1
        · subst h1
          simpa [pickMin, h] using hx.2.1
        · simpa [pickMin, h] using hx.2.2 y h1
    · have hr := ih r
      refine ⟨?_, ?_, ?_⟩
      · rcases hr.1 with h1 | h1
        · exact Or.inl (by simp [pickMin, h, h1])
        · exact Or.inr (by simp [pickMin, h, h1])
      · simpa [pickMin, h] using hr.2.1
      · intro y hy
        rcases List.mem_cons.mp hy with h1 | h1
        · subst h1
          have h2 : keyLe (key (pickMin key r t)) (key r) := hr.2.1
          exact keyLe_trans _ _ _ (by simpa [pickMin, h] using h2)
            (keyLe_of_not_lt _ _ h)
        · simpa [pickMin, h] using hr.2.2 y h1

/-- The WHERE clause of the exact-match query: literal path equal to the
query-stripped URL, method equal to the request method or `any`,
non-regex, active. -/
def isExactCandidate (url tipo : String) (r : Ruta) : Bool :=
  (r.ruta == stripQuery url) && (r.tipo == tipo || r.tipo == "any") &&
  !r.isRegex && r.activo

/-- The WHERE clause of the regex query: regex-flagged, method equal to
the request method or `any`, active. -/
def isRegexCandidate (tipo : String) (r : Ruta) : Bool :=
  r.isRegex && (r.tipo == tipo || r.tipo == "any") && r.activo

/-- Insertion step of the `ORDER BY COALESCE(orden, 999999) ASC` sort of
the regex query. -/
def insertOrden (a : Ruta) : List Ruta → List Ruta
  | [] => [a]
  | b :: l => if ordenKey a ≤ ordenKey b then a :: b :: l else b :: insertOrden a l

/-- Stable sort by `ordenKey` (insertion sort). -/
def sortByOrden : List Ruta → List Ruta
  | [] => []
  | a :: l => insertOrden a (sortByOrden l)

theorem mem_insertOrden (x a : Ruta) (l : List Ruta) :
    x ∈ insertOrden a l ↔ x = a ∨ x ∈ l := by
  induction l with
  | nil => simp [insertOrden]
  | cons b t ih =>
    by_cases h : ordenKey a ≤ ordenKey b
    · simp [insertOrden, h]
    · simp [insertOrden, h, ih]
      tauto

theorem mem_sortByOrden (x : Ruta) (l : List Ruta) :
    x ∈ sortByOrden l ↔ x ∈ l := by
  induction l with
  | nil => simp [sortByOrden]
  | cons a t ih => simp [sortByOrden, mem_insertOrden, ih]

/-- `getRuta` of `sqlite.service.js`.  `test pat url` models
`new RegExp(pat).test(url)`: `none` models a pattern whose compilation
throws (the rule is skipped and logged), `some b` the test outcome.
Phase 1 is the exact-match query over the stripped path; phase 2, reached
only when phase 1 returns no row, walks the regex rules in priority order
testing each pattern against the full raw URL. -/
def getRuta (test : String → String → Option Bool) (rules : List Ruta)
    (url tipo : String) : Option Ruta :=
  match rules.filter (isExactCandidate url tipo) with
  | r :: rest => some (pickMin (exactKey tipo) r rest)
  | [] =>
    (sortByOrden (rules.filter (isRegexCandidate tipo))).find?
      (fun r => (test r.ruta url).getD false)

theorem exactCandidate_props (url tipo : String) (r : Ruta)
    (h : isExactCandidate url tipo r = true) :
    r.ruta = stripQuery url ∧ (r.tipo = tipo ∨ r.tipo = "any") ∧
    r.isRegex = false ∧ r.activo = true := by
  simp only [isExactCandidate, Bool.and_eq_true, Bool.or_eq_true, beq_iff_eq,
    Bool.not_eq_true'] at h
  tauto

theorem regexCandidate_props (tipo : String) (r : Ruta)
    (h : isRegexCandidate tipo r = true) :
    r.isRegex = true ∧ (r.tipo = tipo ∨ r.tipo = "any") ∧ r.activo = true := by
  simp only [isRegexCandidate, Bool.and_eq_true, Bool.or_eq_true, beq_iff_eq] at h
  tauto

/-- **C8.** Whatever rule `getRuta` returns: a literal (non-regex) rule
was matched by string equality against the query-stripped request path,
while a regex rule was matched by testing its compiled pattern against
the original, unstripped raw URL. -/
theorem getRuta_match_targets (test : String → String → Option Bool)
    (rules : List Ruta) (url tipo : String) (r : Ruta)
    (h : getRuta test rules url tipo = some r) :
    (r.isRegex = false → r.ruta = stripQuery url) ∧
    (r.isRegex = true → test r.ruta url = some true) := by
  unfold getRuta at h
  cases hf : rules.filter (isExactCandidate url tipo) with
  | cons a rest =>
    rw [hf] at h
    have h2 : some (pickMin (exactKey tipo) a rest) = some r := h
    have hr : r = pickMin (exactKey tipo) a rest := (Option.some_inj.mp h2).symm
    have hmem : r ∈ a :: rest := by
      rcases (pickMin_spec (exactKey tipo) rest a).1 with h1 | h1
      · rw [hr, h1]
        exact List.mem_cons_self a rest
      · rw [hr]
        exact List.mem_cons_of_mem a h1
    have hcand : isExactCandidate url tipo r = true := by
      have : r ∈ rules.filter (isExactCandidate url tipo) := hf ▸ hmem
      exact List.of_mem_filter this
    obtain ⟨hruta, _, hnr, _⟩ := exactCandidate_props url tipo r hcand
    constructor
    · intro _
      exact hruta
    · intro hreg
      rw [hnr] at hreg
      exact absurd hreg (by decide)
  | nil =>
    rw [hf] at h
    have h2 : (sortByOrden (rules.filter (isRegexCandidate tipo))).find?
        (fun r => (test r.ruta url).getD false) = some r := h
    have hpred : (test r.ruta url).getD false = true := by
      have h3 := List.find?_some h2
      exact h3
    have hmem : r ∈ sortByOrden (rules.filter (isRegexCandidate tipo)) :=
      List.mem_of_find?_eq_some h2
    have hcand : isRegexCandidate tipo r = true :=
      List.of_mem_filter ((mem_sortByOrden r _).mp hmem)
    obtain ⟨hreg, _, _⟩ := regexCandidate_props tipo r hcand
    constructor
    · intro hnr
      rw [hreg] at hnr
      exact absurd hnr (by decide)
    · intro _
      cases htest : test r.ruta url with
      | none =>
        rw [htest] at hpred
        exact absurd hpred (by decide)
      | some b =>
        rw [htest] at hpred
        simp only [Option.getD_some] at hpred
        rw [hpred]

/-- **C1.** If the rule set contains both an active literal rule whose
path equals the query-stripped request path and an active regex rule
whose pattern matches the raw URL (each with the request method or
`any`), `getRuta` returns a literal rule — regardless of either rule's
priority number.  Among the matching literal rules the returned one
minimises the key (exact method before `any`, then lowest priority
number), and if any matching literal rule has the exact request method,
the returned rule does. -/
theorem getRuta_literal_beats_regex (test : String → String → Option Bool)
    (rules : List Ruta) (url tipo : String) (lit rg : Ruta)
    (hlit_mem : lit ∈ rules) (hlit : isExactCandidate url tipo lit = true)
    (_hrg_mem : rg ∈ rules) (_hrg : isRegexCandidate tipo rg = true)
    (_hrg_match : test rg.ruta url = some true) :
    ∃ r, getRuta test rules url tipo = some r ∧ r.isRegex = false ∧
      isExactCandidate url tipo r = true ∧
      (∀ c ∈ rules, isExactCandidate url tipo c = true →
        keyLe (exactKey tipo r) (exactKey tipo c)) ∧
      (∀ c ∈ rules, isExactCandidate url tipo c = true → c.tipo = tipo →
        r.tipo = tipo) := by
  have hfl : lit ∈ rules.filter (isExactCandidate url tipo) :=
    List.mem_filter.mpr ⟨hlit_mem, hlit⟩
  cases hf : rules.filter (isExactCandidate url tipo) with
  | nil =>
    rw [hf] at hfl
    exact absurd hfl (List.not_mem_nil lit)
  | cons a rest =>
    have spec := pickMin_spec (exactKey tipo) rest a
    set r := pickMin (exactKey tipo) a rest with hrdef
    have hmem : r ∈ a :: rest := by
      rcases spec.1 with h1 | h1
      · exact h1 ▸ List.mem_cons_self a rest
      · exact List.mem_cons_of_mem a h1
    have hcand : isExactCandidate url tipo r = true :=
      List.of_mem_filter (hf ▸ hmem)
    have hmin : ∀ c ∈ rules, isExactCandidate url tipo c = true →
        keyLe (exactKey tipo r) (exactKey tipo c) := by
      intro c hc hcc
      have : c ∈ a :: rest := hf ▸ List.mem_filter.mpr ⟨hc, hcc⟩
      rcases List.mem_cons.mp this with h1 | h1
      · exact h1 ▸ spec.2.1
      · exact spec.2.2 c h1
    obtain ⟨_, _, hnr, _⟩ := exactCandidate_props url tipo r hcand
    refine ⟨r, ?_, hnr, hcand, hmin, ?_⟩
    · unfold getRuta
      rw [hf]
    · intro c hc hcc hctipo
      have hle := hmin c hc hcc
      have hkc : exactKeyRank tipo c = 0 := by
        simp [exactKeyRank, hctipo]
      have hkr : exactKeyRank tipo r = 0 := by
        rcases hle with h1 | ⟨h1, _⟩
        · rw [exactKey, exactKey, hkc] at h1
          exact absurd h1 (Nat.not_lt_zero _)
        · rw [exactKey, exactKey, hkc] at h1
          exact h1
      by_cases ht : r.tipo = tipo
      · exact ht
      · rw [exactKeyRank, if_neg ht] at hkr
        exact absurd hkr (by decide)

/-- Literal rule for the C1/C8 witnesses: `GET /a`, priority 5. -/
def litRule : Ruta := ⟨1, "get", "/a", false, true, some 5, "json"⟩

/-- Regex rule for the C1 witness: any method, pattern matching the raw
URL, priority 1 (better than the literal rule's). -/
def rgRule : Ruta := ⟨2, "any", "^/a", true, true, some 1, "json"⟩

/-- Witness for C1: with both rules present and a regex test that
matches, the literal rule wins. -/
theorem getRuta_literal_beats_regex_witness :
    ∃ r, getRuta (fun _ _ => some true) [litRule, rgRule] "/a?x=1" "get" = some r ∧
      r.isRegex = false ∧
      isExactCandidate "/a?x=1" "get" r = true ∧
      (∀ c ∈ [litRule, rgRule], isExactCandidate "/a?x=1" "get" c = true →
        keyLe (exactKey "get" r) (exactKey "get" c)) ∧
      (∀ c ∈ [litRule, rgRule], isExactCandidate "/a?x=1" "get" c = true →
        c.tipo = "get" → r.tipo = "get") :=
  getRuta_literal_beats_regex (fun _ _ => some true) [litRule, rgRule]
    "/a?x=1" "get" litRule rgRule (List.mem_cons_self _ _) (by decide)
    (List.mem_cons_of_mem _ (List.mem_cons_self _ _)) (by decide) rfl

/-- Witness for C8: the matcher returns the literal rule for `/a?x=1`,
and the characterization applies to it. -/
theorem getRuta_match_targets_witness :
    (litRule.isRegex = false → litRule.ruta = stripQuery "/a?x=1") ∧
    (litRule.isRegex = true → (fun _ _ => (some false : Option Bool)) litRule.ruta "/a?x=1" = some true) :=
  getRuta_match_targets (fun _ _ => some false) [litRule] "/a?x=1" "get" litRule (by decide)

/-! ## Response resolution: conditional overrides -/

/-- Model of JavaScript `parseInt(s)` restricted to strings starting
with digits (the stored status codes); `none` models `NaN`. -/
def jsParseInt (s : String) : Option Nat :=
  match s.data.takeWhile (·.isDigit) with
  | [] => none
  | ds => some (ds.foldl (fun n c => n * 10 + (c.toNat - 48)) 0)

/-- JavaScript truthiness of a nullable string (`null`, `undefined` and
`''` are falsy). -/
def truthyStr : Option String → Bool
  | some s => s != ""
  | none => false

/-- The four mutable response fields of `checkRoute` /
`sendFallbackResponse`: status code (`none` models `NaN`), response
kind, body and header-transform JSON. -/
structure RState where
  code : Option Nat
  kind : String
  body : Option String
  headers : Option String
deriving DecidableEq, Repr

/-- A row of `conditional_responses` / `proxy_fallback_conditions`
restricted to the columns the resolution loops read. -/
structure CondRule where
  nombre : Option String
  criteria : String
  codigo : Option String
  tiporespuesta : Option String
  respuesta : Option String
  customHeaders : Option String
  activo : Bool
deriving DecidableEq, Repr

/-- The override block of `checkRoute`'s condition loop: `codigo`,
`tiporespuesta` and `customHeaders` overwrite when truthy, `respuesta`
when it is neither `null` nor `undefined` (the empty string does
overwrite here). -/
def applyCondition (st : RState) (c : CondRule) : RState :=
  { code := if truthyStr c.codigo then jsNumber (c.codigo.getD "") else st.code,
    kind := if truthyStr c.tiporespuesta then c.tiporespuesta.getD "" else st.kind,
    body := match c.respuesta with
            | some s => some s
            | none => st.body,
    headers := if truthyStr c.customHeaders then c.customHeaders else st.headers }

/-- The condition loop of `checkRoute`: conditions arrive already
filtered to active rows and ordered by `orden ASC`
(`getConditionalResponses`); the first whose predicate evaluates
successfully to true is applied and the loop breaks.  `evalOk c` models
`evalResult.success && evalResult.result` for `c.criteria` against the
fixed request view. -/
def resolveConditions (evalOk : CondRule → Bool) (st : RState) :
    List CondRule → RState
  | [] => st
  | c :: rest =>
    if evalOk c then applyCondition st c else resolveConditions evalOk st rest

/-- The override block of `sendFallbackResponse`'s condition loop: same
as `applyCondition` except that `codigo` is converted with `parseInt`
and an empty-string `respuesta` does not overwrite. -/
def fallbackApplyCondition (st : RState) (c : CondRule) : RState :=
  { code := if truthyStr c.codigo then jsParseInt (c.codigo.getD "") else st.code,
    kind := if truthyStr c.tiporespuesta then c.tiporespuesta.getD "" else st.kind,
    body := match c.respuesta with
            | some s => if s != "" then some s else st.body
            | none => st.body,
    headers := if truthyStr c.customHeaders then c.customHeaders else st.headers }

/-- The condition loop of `sendFallbackResponse`: walks the fallback's
conditions in stored order, skipping inactive rows
(`if (!condition.activo) continue`), and applies the first match. -/
def fallbackResolveConditions (evalOk : CondRule → Bool) (st : RState) :
    List CondRule → RState
  | [] => st
  | c :: rest =>
    if c.activo then
      if evalOk c then fallbackApplyCondition st c
      else fallbackResolveConditions evalOk st rest
    else fallbackResolveConditions evalOk st rest

/-- A row of `proxy_fallbacks` as loaded by `loadProxyConfigs`:
`error_types` holds the JSON-parsed error-class list (a stored string
that fails to parse yields `[]`), `conditions` the pre-loaded active
condition rows in `orden ASC` order. -/
structure PFallback where
  nombre : Option String
  path_pattern : String
  error_types : List String
  codigo : Option String
  tiporespuesta : Option String
  respuesta : Option String
  customHeaders : Option String
  conditions : List CondRule
deriving DecidableEq, Repr

/-- The fallback's own defaults, as seeded at the top of
`sendFallbackResponse`: `parseInt(fallback.codigo) || 200`,
`fallback.tiporespuesta || 'json'`, `fallback.respuesta || ''`. -/
def fallbackDefaults (fb : PFallback) : RState :=
  { code := some (match fb.codigo with
            | some s => (match jsParseInt s with
                         | some n => if n = 0 then 200 else n
                         | none => 200)
            | none => 200),
    kind := (match fb.tiporespuesta with
             | some s => if s != "" then s else "json"
             | none => "json"),
    body := some (fb.respuesta.getD ""),
    headers := fb.customHeaders }

/-- **C3.** Condition rules are evaluated in list (order-index) order;
the first whose predicate is true wins and evaluation stops there
(later conditions are irrelevant); each of the four fields is
overwritten only if the winning condition sets it, unset fields keeping
the current default — both for a route's conditions over the route
defaults and for a fallback's nested conditions over the fallback's own
defaults. -/
theorem conditions_first_match_wins (evalOk : CondRule → Bool) (st : RState) :
    (∀ l, resolveConditions evalOk st l =
      (match l.find? evalOk with
       | some c => applyCondition st c
       | none => st)) ∧
    (∀ l, fallbackResolveConditions evalOk st l =
      (match (l.filter (fun c => c.activo)).find? evalOk with
       | some c => fallbackApplyCondition st c
       | none => st)) ∧
    (∀ l1 l2 l2' c, evalOk c = true →
      resolveConditions evalOk st (l1 ++ c :: l2) =
      resolveConditions evalOk st (l1 ++ c :: l2')) ∧
    (∀ c, c.codigo = none →
      (applyCondition st c).code = st.code ∧
      (fallbackApplyCondition st c).code = st.code) ∧
    (∀ c, c.tiporespuesta = none →
      (applyCondition st c).kind = st.kind ∧
      (fallbackApplyCondition st c).kind = st.kind) ∧
    (∀ c, c.respuesta = none →
      (applyCondition st c).body = st.body ∧
      (fallbackApplyCondition st c).body = st.body) ∧
    (∀ c, c.customHeaders = none →
      (applyCondition st c).headers = st.headers ∧
      (fallbackApplyCondition st c).headers = st.headers) ∧
    (∀ fb : PFallback,
      fallbackResolveConditions evalOk (fallbackDefaults fb) fb.conditions =
      (match (fb.conditions.filter (fun c => c.activo)).find? evalOk with
       | some c => fallbackApplyCondition (fallbackDefaults fb) c
       | none => fallbackDefaults fb)) := by
  have h1 : ∀ l, resolveConditions evalOk st l =
      (match l.find? evalOk with
       | some c => applyCondition st c
       | none => st) := by
    intro l
    induction l with
    | nil => rfl
    | cons a t ih =>
      by_cases h : evalOk a
      · simp [resolveConditions, List.find?_cons, h]
      · simp only [resolveConditions, List.find?_cons]
        rw [if_neg h]
        simp only [h]
        exact ih
  have h2 : ∀ (s : RState) (l : List CondRule),
      fallbackResolveConditions evalOk s l =
      (match (l.filter (fun c => c.activo)).find? evalOk with
       | some c => fallbackApplyCondition s c
       | none => s) := by
    intro s l
    induction l with
    | nil => rfl
    | cons a t ih =>
      by_cases ha : a.activo
      · by_cases h : evalOk a
        · simp [fallbackResolveConditions, List.filter_cons, List.find?_cons, ha, h]
        · simp only [fallbackResolveConditions, List.filter_cons]
          rw [if_pos ha, if_neg h]
          simp only [ha, if_true, List.find?_cons, h]
          exact ih
      · simp only [fallbackResolveConditions, List.filter_cons]
        rw [if_neg ha]
        simp only [ha, Bool.false_eq_true, if_false]
        exact ih
  refine ⟨h1, h2 st, ?_, ?_, ?_, ?_, ?_, ?_⟩
  · intro l1 l2 l2' c hc
    induction l1 with
    | nil => simp [resolveConditions, hc]
    | cons a t ih =>
      by_cases h : evalOk a
      · simp [resolveConditions, h]
      · simpa [resolveConditions, h] using ih
  · intro c hc
    constructor <;> simp [applyCondition, fallbackApplyCondition, hc, truthyStr]
  · intro c hc
    constructor <;> simp [applyCondition, fallbackApplyCondition, hc, truthyStr]
  · intro c hc
    constructor <;> simp [applyCondition, fallbackApplyCondition, hc]
  · intro c hc
    constructor <;> simp [applyCondition, fallbackApplyCondition, hc, truthyStr]
  · intro fb
    exact h2 (fallbackDefaults fb) fb.conditions

/-- Matching oracle for the C3 witness: predicates whose text is the
literal `true` succeed. -/
def matchesTrue : CondRule → Bool := fun c => c.criteria == "true"

/-- A condition that matches but sets none of the four fields. -/
def condNoOverride : CondRule := ⟨some "c0", "true", none, none, none, none, true⟩

/-- A later condition, used to show evaluation stops at the first match. -/
def condLater : CondRule :=
  ⟨some "c1", "true", some "500", some "text", some "x", none, true⟩

/-- Default state for the C3 witness. -/
def stWitness : RState := ⟨some 200, "json", some "{}", none⟩

/-- Witness for C3: a matching condition stops evaluation (a differing
suffix is irrelevant), and a condition that sets no field leaves every
field at its default. -/
theorem conditions_first_match_wins_witness :
    (resolveConditions matchesTrue stWitness ([] ++ condNoOverride :: []) =
     resolveConditions matchesTrue stWitness ([] ++ condNoOverride :: [condLater])) ∧
    ((applyCondition stWitness condNoOverride).code = stWitness.code ∧
     (fallbackApplyCondition stWitness condNoOverride).code = stWitness.code) ∧
    ((applyCondition stWitness condNoOverride).body = stWitness.body ∧
     (fallbackApplyCondition stWitness condNoOverride).body = stWitness.body) :=
  ⟨(conditions_first_match_wins matchesTrue stWitness).2.2.1 [] [] [condLater]
      condNoOverride rfl,
   (conditions_first_match_wins matchesTrue stWitness).2.2.2.1 condNoOverride rfl,
   (conditions_first_match_wins matchesTrue stWitness).2.2.2.2.2.1 condNoOverride rfl⟩

/-! ## Response rendering: `safeJsonParse` and the kind dispatch of `checkRoute` -/

/-- A JSON value, the result type of `JSON.parse`. -/
inductive Json where
  | null
  | bool (b : Bool)
  | num (n : Int)
  | str (s : String)
  | arr (xs : List Json)
  | obj (fields : List (String × Json))

/-- Whitespace accepted between JSON tokens. -/
def jsonSkipWs (cs : List Char) : List Char :=
  cs.dropWhile (fun c => c == ' ' || c == '\t' || c == '\n' || c == '\r')

/-- Body of a JSON string literal after the opening quote, up to the
closing quote; escape sequences are outside the modelled fragment. -/
def parseStringBody : List Char → Option (List Char × List Char)
  | [] => none
  | '"' :: rest => some ([], rest)
  | '\\' :: _ => none
  | c :: rest =>
    match parseStringBody rest with
    | some (acc, r) => some (c :: acc, r)
    | none => none

/-- An integer JSON number (fractions and exponents are outside the
modelled fragment). -/
def parseNumAux (neg : Bool) (cs : List Char) : Option (Int × List Char) :=
  let ds := cs.takeWhile (·.isDigit)
  let rest := cs.drop ds.length
  if ds.isEmpty then none
  else
    match rest with
    | '.' :: _ => none
    | 'e' :: _ => none
    | 'E' :: _ => none
    | _ =>
      let n : Nat := ds.foldl (fun n c => n * 10 + (c.toNat - 48)) 0
      some (if neg then -(n : Int) else (n : Int), rest)

mutual

/-- Recursive-descent model of `JSON.parse` on the fragment the stored
bodies use (null, booleans, integers, escape-free strings, arrays,
objects); anything outside the fragment parses to `none`, the model of a
thrown `SyntaxError`.  Fuel makes the recursion structural. -/
def parseVal : Nat → List Char → Option (Json × List Char)
  | 0, _ => none
  | Nat.succ fuel, cs =>
    match jsonSkipWs cs with
    | 'n' :: 'u' :: 'l' :: 'l' :: rest => some (Json.null, rest)
    | 't' :: 'r' :: 'u' :: 'e' :: rest => some (Json.bool true, rest)
    | 'f' :: 'a' :: 'l' :: 's' :: 'e' :: rest => some (Json.bool false, rest)
    | '"' :: rest =>
      (match parseStringBody rest with
       | some (content, r) => some (Json.str ⟨content⟩, r)
       | none => none)
    | '\x7b' :: rest =>
      (match jsonSkipWs rest with
       | '\x7d' :: r => some (Json.obj [], r)
       | other => parseMembers fuel other [])
    | '[' :: rest =>
      (match jsonSkipWs rest with
       | ']' :: r => some (Json.arr [], r)
       | other => parseElems fuel other [])
    | '-' :: rest => (parseNumAux true rest).map (fun p => (Json.num p.1, p.2))
    | c :: rest =>
      if c.isDigit then (parseNumAux false (c :: rest)).map (fun p => (Json.num p.1, p.2))
      else none
    | [] => none

/-- Members of a JSON object after the opening brace (nonempty case). -/
def parseMembers : Nat → List Char → List (String × Json) → Option (Json × List Char)
  | 0, _, _ => none
  | Nat.succ fuel, cs, acc =>
    match jsonSkipWs cs with
    | '"' :: rest =>
      (match parseStringBody rest with
       | some (key, r1) =>
         (match jsonSkipWs r1 with
          | ':' :: r2 =>
            (match parseVal fuel r2 with
             | some (v, r3) =>
               (match jsonSkipWs r3 with
                | ',' :: r4 => parseMembers fuel r4 (acc ++ [(⟨key⟩, v)])
                | '\x7d' :: r4 => some (Json.obj (acc ++ [(⟨key⟩, v)]), r4)
                | _ => none)
             | none => none)
          | _ => none)
       | none => none)
    | _ => none

/-- Elements of a JSON array after the opening bracket (nonempty case). -/
def parseElems : Nat → List Char → List Json → Option (Json × List Char)
  | 0, _, _ => none
  | Nat.succ fuel, cs, acc =>
    match parseVal fuel cs with
    | some (v, r) =>
      (match jsonSkipWs r with
       | ',' :: r2 => parseElems fuel r2 (acc ++ [v])
       | ']' :: r2 => some (Json.arr (acc ++ [v]), r2)
       | _ => none)
    | none => none

end

/-- `JSON.parse` on a whole string: the parse must consume everything
but trailing whitespace. -/
def jsParse (s : String) : Option Json :=
  match parseVal (s.data.length + 1) s.data with
  | some (v, rest) => if (jsonSkipWs rest).isEmpty then some v else none
  | none => none

/-- `safeJsonParse` of `routes.middleware.js`: empty / whitespace-only /
absent input fails without calling the parser; otherwise the result is
the parser's (`none` models the caught `SyntaxError`, reported as
`{success:false}`). -/
def safeJsonParse (parse : String → Option Json) : Option String → Option Json
  | none => none
  | some s => if (jsTrim s).data.length = 0 then none else parse s

/-- The outbound response produced by the tail of `checkRoute`:
`redirect` is `res.redirect(301, body)`; `json` is `res.json(v)` (which
sets an `application/json` content type and serializes `v`); `content`
carries the content type set for text/html/xml/soap kinds; `page` and
`file` delegate to the external template renderer / upload store. -/
inductive Rendered where
  | redirect (location : Option String)
  | page (status : Option Nat) (body : Option String)
  | file (status : Option Nat)
  | json (status : Option Nat) (value : Json)
  | content (status : Option Nat) (contentType : Option String) (body : Option String)
  | empty (status : Option Nat)

/-- Content types set by the text-ish branches of `checkRoute`. -/
def contentTypeFor : String → Option String
  | "text" => some "text/plain"
  | "html" => some "text/html"
  | "xml" => some "application/xml"
  | "soap" => some "text/xml"
  | _ => none

/-- The response dispatch at the tail of `checkRoute`, applied to the
resolved state: the `responseCode === 301` redirect check runs first,
then `empty`, then the kind dispatch (`page`, `file`, `json`, text-ish).
For `json`, a parse failure degrades to the empty object under the same
status (`res.json({})`), never a 5xx. -/
def renderRoute (parse : String → Option Json) (st : RState) : Rendered :=
  if st.code = some 301 then Rendered.redirect st.body
  else if st.kind != "empty" then
    if st.kind = "page" then Rendered.page st.code st.body
    else if st.kind = "file" then Rendered.file st.code
    else if st.kind = "json" then
      match safeJsonParse parse st.body with
      | some v => Rendered.json st.code v
      | none => Rendered.json st.code (Json.obj [])
    else Rendered.content st.code (contentTypeFor st.kind) st.body
  else Rendered.empty st.code

/-- Discriminator used by the C9 counterexample. -/
def isJsonRender : Rendered → Bool
  | Rendered.json _ _ => true
  | _ => false

/-- A resolved json-kind state whose status resolved to 301. -/
def st301 : RState := ⟨some 301, "json", some "\x7b\"a\":1\x7d", none⟩

/-- **C9, counterexample.** A resolved response of kind `json` whose
resolved status code is 301 is not answered as JSON at all: the
`responseCode === 301` check precedes the kind dispatch, so the body
becomes the redirect Location.  This refutes the claim for the resolved
status 301. -/
theorem renderRoute_json_301_ce :
    renderRoute jsParse st301 = Rendered.redirect (some "\x7b\"a\":1\x7d") ∧
    isJsonRender (renderRoute jsParse st301) = false :=
  ⟨rfl, rfl⟩

/-- **C9 (amended).** For a resolved non-proxy response of kind `json`
whose resolved status code is not 301 (301 renders a redirect regardless
of kind): a body that parses as JSON is answered with the resolved
status and the parsed value serialized (`res.json`), and a body that
fails to parse is answered with the empty object under the same resolved
status — never a 5xx and, the dispatch being a total function, never a
raised exception.  Concretely, body `'{"a":1}'` with resolved status 200
yields `200` / `{"a":1}`, and `'{invalid'` yields `200` / `{}`. -/
theorem renderRoute_json_amended (parse : String → Option Json) (st : RState)
    (hk : st.kind = "json") (hc : st.code ≠ some 301) :
    (∀ v, safeJsonParse parse st.body = some v →
      renderRoute parse st = Rendered.json st.code v) ∧
    (safeJsonParse parse st.body = none →
      renderRoute parse st = Rendered.json st.code (Json.obj [])) ∧
    renderRoute jsParse ⟨some 200, "json", some "\x7b\"a\":1\x7d", none⟩ =
      Rendered.json (some 200) (Json.obj [("a", Json.num 1)]) ∧
    renderRoute jsParse ⟨some 200, "json", some "\x7binvalid", none⟩ =
      Rendered.json (some 200) (Json.obj []) := by
  refine ⟨?_, ?_, rfl, rfl⟩
  · intro v hv
    simp [renderRoute, hk, hc, hv]
  · intro hv
    simp [renderRoute, hk, hc, hv]

/-- Witness for C9 (amended), applying it at the round-trip example. -/
theorem renderRoute_json_amended_witness :
    (∀ v, safeJsonParse jsParse (some "\x7b\"a\":1\x7d") = some v →
      renderRoute jsParse ⟨some 200, "json", some "\x7b\"a\":1\x7d", none⟩ =
        Rendered.json (some 200) v) ∧
    (safeJsonParse jsParse (some "\x7b\"a\":1\x7d") = none →
      renderRoute jsParse ⟨some 200, "json", some "\x7b\"a\":1\x7d", none⟩ =
        Rendered.json (some 200) (Json.obj [])) ∧
    renderRoute jsParse ⟨some 200, "json", some "\x7b\"a\":1\x7d", none⟩ =
      Rendered.json (some 200) (Json.obj [("a", Json.num 1)]) ∧
    renderRoute jsParse ⟨some 200, "json", some "\x7binvalid", none⟩ =
      Rendered.json (some 200) (Json.obj []) :=
  renderRoute_json_amended jsParse ⟨some 200, "json", some "\x7b\"a\":1\x7d", none⟩
    rfl (by decide)

/-! ## Proxy fallbacks: `findMatchingFallback` and the regex fragment -/

/-- One token of the modelled JavaScript regex fragment: a literal
character, `.` or `.*`. -/
inductive RTok where
  | lit (c : Char)
  | anyOne
  | anyStar
deriving DecidableEq, Repr

/-- Regex metacharacters outside the modelled fragment; a pattern using
them parses to `none` (the model stays silent about such patterns — the
generic theorems quantify over an arbitrary test oracle instead). -/
def regexMetaChars : List Char :=
  ['\\', '(', ')', '[', ']', '\x7b', '\x7d', '+', '?', '|', '$', '^', '*']

/-- Parse the body of a pattern into tokens (`.*`, `.`, literals). -/
def parseToks : List Char → Option (List RTok)
  | [] => some []
  | '.' :: '*' :: rest2 => (parseToks rest2).map (fun ts => RTok.anyStar :: ts)
  | '.' :: rest => (parseToks rest).map (fun ts => RTok.anyOne :: ts)
  | c :: rest =>
    if c ∈ regexMetaChars then none
    else (parseToks rest).map (fun ts => RTok.lit c :: ts)

/-- A pattern with an optional leading `^` anchor. -/
def jsPattern (p : String) : Option (Bool × List RTok) :=
  match p.data with
  | '^' :: rest => (parseToks rest).map (fun ts => (true, ts))
  | cs => (parseToks cs).map (fun ts => (false, ts))

/-- Token-list matching at the current position; a match need not
consume the whole input (as for `RegExp.prototype.test`).  Fuel makes
the recursion structural; every call shrinks tokens or input, so
`tokens + input + 1` fuel is exact. -/
def matchToks : Nat → List RTok → List Char → Bool
  | 0, _, _ => false
  | Nat.succ fuel, ts, s =>
    match ts, s with
    | [], _ => true
    | RTok.lit c :: ts2, d :: s2 => c == d && matchToks fuel ts2 s2
    | RTok.anyOne :: ts2, _ :: s2 => matchToks fuel ts2 s2
    | RTok.anyStar :: ts2, s1 =>
      matchToks fuel ts2 s1 ||
      (match s1 with
       | _ :: s2 => matchToks fuel (RTok.anyStar :: ts2) s2
       | [] => false)
    | _, [] => false

/-- Unanchored search: try to match at every start position. -/
def searchToks (fuel : Nat) (ts : List RTok) : List Char → Bool
  | [] => matchToks fuel ts []
  | c :: s => matchToks fuel ts (c :: s) || searchToks fuel ts s

/-- `new RegExp(p).test(s)` on the modelled fragment: `none` models a
pattern outside the fragment (the callers treat `none` as the skipped /
no-match case, exactly as `findMatchingFallback` skips a pattern whose
compilation throws). -/
def jsRegexTest (p s : String) : Option Bool :=
  (jsPattern p).map (fun a =>
    let fuel := a.2.length + s.data.length + 1
    if a.1 then matchToks fuel a.2 s.data else searchToks fuel a.2 s.data)

/-- The per-fallback test of `findMatchingFallback`: the parsed
error-class list contains the classified error or `all`, and the
sub-path pattern matches the post-rewrite request path (a pattern whose
compilation throws never matches). -/
def fallbackAccepts (test : String → String → Option Bool)
    (subPath errorType : String) (f : PFallback) : Bool :=
  (f.error_types.contains errorType || f.error_types.contains "all") &&
  (test f.path_pattern subPath).getD false

/-- `findMatchingFallback` of the proxy middleware: walk the rule's
active fallbacks in `orden ASC` order and return the first acceptable
one. -/
def findMatchingFallback (test : String → String → Option Bool)
    (fbs : List PFallback) (subPath errorType : String) : Option PFallback :=
  match fbs with
  | [] => none
  | f :: rest =>
    if fallbackAccepts test subPath errorType f then some f
    else findMatchingFallback test rest subPath errorType

/-- The timeout-only fallback of the claim's example, guarding
`^/users/.*`. -/
def fbTimeoutUsers : PFallback :=
  ⟨some "users-timeout", "^/users/.*", ["timeout"], some "200", some "json",
   some "\x7b\x7d", none, []⟩

/-- The generic catch-all fallback of the claim's example. -/
def fbAll : PFallback :=
  ⟨some "generic", ".*", ["all"], some "200", some "json",
   some "\x7b\x7d", none, []⟩

/-- **C4.** On a classified error the selected fallback is the first
active one, in order-index order, whose error-class set contains the
classified error or `all` and whose sub-path pattern matches the
post-rewrite path.  In particular, for fallbacks
`[{errorTypes:[timeout], pattern:^/users/.*}, {errorTypes:[all], pattern:.*}]`
and a classified timeout, path `/users/5` selects the first and
`/orders/5` the second. -/
theorem findMatchingFallback_first_accepted :
    findMatchingFallback jsRegexTest [fbTimeoutUsers, fbAll] "/users/5" "timeout"
      = some fbTimeoutUsers ∧
    findMatchingFallback jsRegexTest [fbTimeoutUsers, fbAll] "/orders/5" "timeout"
      = some fbAll ∧
    ∀ (test : String → String → Option Bool) (fbs : List PFallback)
      (subPath errorType : String) (f : PFallback),
      findMatchingFallback test fbs subPath errorType = some f →
      fallbackAccepts test subPath errorType f = true ∧
      ∃ l1 l2, fbs = l1 ++ f :: l2 ∧
        ∀ x ∈ l1, fallbackAccepts test subPath errorType x = false := by
  refine ⟨by decide, by decide, ?_⟩
  intro test fbs subPath errorType f h
  induction fbs with
  | nil => exact absurd h (by simp [findMatchingFallback])
  | cons a rest ih =>
    by_cases ha : fallbackAccepts test subPath errorType a = true
    · have hf : f = a := by
        simp only [findMatchingFallback, ha, if_true] at h
        exact (Option.some_inj.mp h).symm
      subst hf
      exact ⟨ha, [], rest, rfl, by simp⟩
    · have h2 : findMatchingFallback test rest subPath errorType = some f := by
        simp only [findMatchingFallback] at h
        rwa [if_neg ha] at h
      obtain ⟨hacc, l1, l2, hdec, hrej⟩ := ih h2
      refine ⟨hacc, a :: l1, l2, by rw [hdec, List.cons_append], ?_⟩
      intro x hx
      rcases List.mem_cons.mp hx with h1 | h1
      · subst h1
        simpa using ha
      · exact hrej x h1

/-- Witness for C4: the characterization applied to the `/users/5`
selection established by the theorem's own first conjunct. -/
theorem findMatchingFallback_first_accepted_witness :
    fallbackAccepts jsRegexTest "/users/5" "timeout" fbTimeoutUsers = true ∧
    ∃ l1 l2, [fbTimeoutUsers, fbAll] = l1 ++ fbTimeoutUsers :: l2 ∧
      ∀ x ∈ l1, fallbackAccepts jsRegexTest "/users/5" "timeout" x = false :=
  findMatchingFallback_first_accepted.2.2 jsRegexTest [fbTimeoutUsers, fbAll]
    "/users/5" "timeout" fbTimeoutUsers findMatchingFallback_first_accepted.1

/-! ## Active-Wait Registry: the semaphore service -/

/-- An entry of the shared `waitList`, restricted to the fields the
registry itself reads and writes: the opaque id, the `sleep` flag the
parked handler polls, and the override attached at release time. -/
structure WItem where
  id : String
  sleep : Bool
  customResponse : Option String
deriving DecidableEq, Repr

/-- The mutation `wakeUp` performs on the found entry: store the
override if one was supplied (`customResponse !== null`), then clear the
`sleep` flag. -/
def wakeUpdate (cr : Option String) (x : WItem) : WItem :=
  { x with
    sleep := false,
    customResponse := match cr with
                      | some c => some c
                      | none => x.customResponse }

/-- `wakeUp` of the semaphore service: look the entry up by id
(`findInList` returns the first match); absent id returns `false` and
leaves the list unchanged; otherwise the entry is updated in place and
`true` is returned. -/
def wakeUp (id : String) (cr : Option String) : List WItem → Bool × List WItem
  | [] => (false, [])
  | x :: l =>
    if x.id = id then (true, wakeUpdate cr x :: l)
    else
      let p := wakeUp id cr l
      (p.1, x :: p.2)

/-- The removal the parking task performs after it observes the cleared
flag: `waitList = waitList.filter(ele => ele.id !== element.id)`. -/
def removeId (id : String) (l : List WItem) : List WItem :=
  l.filter (fun x => x.id != id)

/-- The registration step of `addToListAndWait`: `waitList.push(element)`. -/
def park (x : WItem) (l : List WItem) : List WItem := l ++ [x]

/-- `getList` of the semaphore service: returns the shared list. -/
def getList (l : List WItem) : List WItem := l

theorem wakeUp_absent (id : String) (cr : Option String) (l : List WItem)
    (h : ∀ x ∈ l, x.id ≠ id) : wakeUp id cr l = (false, l) := by
  induction l with
  | nil => rfl
  | cons x t ih =>
    have hx : x.id ≠ id := h x (List.mem_cons_self x t)
    have ht : wakeUp id cr t = (false, t) := ih (fun y hy => h y (List.mem_cons_of_mem x hy))
    simp [wakeUp, hx, ht]

theorem wakeUp_append_fresh (l0 : List WItem) (item : WItem) (cr : Option String)
    (h : ∀ x ∈ l0, x.id ≠ item.id) :
    wakeUp item.id cr (l0 ++ [item]) = (true, l0 ++ [wakeUpdate cr item]) := by
  induction l0 with
  | nil => simp [wakeUp]
  | cons x t ih =>
    have hx : x.id ≠ item.id := h x (List.mem_cons_self x t)
    have ht := ih (fun y hy => h y (List.mem_cons_of_mem x hy))
    simp [wakeUp, hx, ht]

theorem removeId_append_fresh (l0 : List WItem) (item2 : WItem) (id : String)
    (h : ∀ x ∈ l0, x.id ≠ id) (hi : item2.id = id) :
    removeId id (l0 ++ [item2]) = l0 := by
  induction l0 with
  | nil => simp [removeId, List.filter, hi]
  | cons x t ih =>
    have hx : x.id ≠ id := h x (List.mem_cons_self x t)
    have ht := ih (fun y hy => h y (List.mem_cons_of_mem x hy))
    simp only [removeId, List.cons_append, List.filter_cons] at ht ⊢
    rw [if_pos (by simpa using hx), ht]

/-- **C6.** Releasing an id not present in the wait list returns `false`
and changes nothing; parking an item and releasing its id once returns
`true`, stores the supplied override (keeping the old one when none is
supplied), and clears the `sleep` flag — unblocking the polling task
exactly once; after the parked task's removal step, a second release of
the same id is again a `false`-returning no-op. -/
theorem semaphore_release_contract (l0 : List WItem) (item : WItem)
    (cr cr2 : Option String)
    (hfresh : ∀ x ∈ l0, x.id ≠ item.id) (_hsleep : item.sleep = true) :
    wakeUp item.id cr l0 = (false, l0) ∧
    wakeUp item.id cr (park item l0) = (true, l0 ++ [wakeUpdate cr item]) ∧
    (wakeUpdate cr item).sleep = false ∧
    (∀ c, cr = some c → (wakeUpdate cr item).customResponse = some c) ∧
    (cr = none → (wakeUpdate cr item).customResponse = item.customResponse) ∧
    removeId item.id (l0 ++ [wakeUpdate cr item]) = l0 ∧
    wakeUp item.id cr2 (removeId item.id (l0 ++ [wakeUpdate cr item])) = (false, l0) := by
  have hrem : removeId item.id (l0 ++ [wakeUpdate cr item]) = l0 :=
    removeId_append_fresh l0 (wakeUpdate cr item) item.id hfresh rfl
  refine ⟨wakeUp_absent item.id cr l0 hfresh,
    wakeUp_append_fresh l0 item cr hfresh, rfl, ?_, ?_, hrem, ?_⟩
  · intro c hc
    simp [wakeUpdate, hc]
  · intro hc
    simp [wakeUpdate, hc]
  · rw [hrem]
    exact wakeUp_absent item.id cr2 l0 hfresh

/-- Parked item for the registry witnesses. -/
def wItemA : WItem := ⟨"a", true, none⟩

/-- Witness for C6 at a concrete parked item and override. -/
theorem semaphore_release_contract_witness :
    wakeUp wItemA.id (some "r") [] = (false, []) ∧
    wakeUp wItemA.id (some "r") (park wItemA []) =
      (true, [] ++ [wakeUpdate (some "r") wItemA]) ∧
    (wakeUpdate (some "r") wItemA).sleep = false ∧
    (∀ c, (some "r" : Option String) = some c →
      (wakeUpdate (some "r") wItemA).customResponse = some c) ∧
    ((some "r" : Option String) = none →
      (wakeUpdate (some "r") wItemA).customResponse = wItemA.customResponse) ∧
    removeId wItemA.id ([] ++ [wakeUpdate (some "r") wItemA]) = [] ∧
    wakeUp wItemA.id none (removeId wItemA.id ([] ++ [wakeUpdate (some "r") wItemA])) =
      (false, []) :=
  semaphore_release_contract [] wItemA (some "r") none (by simp) rfl

/-- **C10.** `wakeUp` never adds or removes entries (release leaves the
id sequence of the shared list untouched — removal happens only in the
parking task's own `addToListAndWait`), `getList` exposes exactly that
shared list, and after a successful release the entry is still present
— visible with its cleared flag until the parking task's next poll —
so a second release of the same id inside that window still finds it
and returns `true`. -/
theorem wakeUp_preserves_entries (id : String) (cr cr2 : Option String)
    (l : List WItem) :
    ((wakeUp id cr l).2.map (fun x => x.id) = l.map (fun x => x.id)) ∧
    (getList (wakeUp id cr l).2 = (wakeUp id cr l).2) ∧
    ((wakeUp id cr l).1 = true →
      (∃ x ∈ (wakeUp id cr l).2, x.id = id ∧ x.sleep = false) ∧
      (wakeUp id cr2 (wakeUp id cr l).2).1 = true) := by
  refine ⟨?_, rfl, ?_⟩
  · induction l with
    | nil => rfl
    | cons x t ih =>
      by_cases hx : x.id = id
      · simp [wakeUp, hx, wakeUpdate]
      · simp only [wakeUp, if_neg hx, List.map_cons]
        rw [ih]
  · induction l with
    | nil =>
      intro h
      exact absurd h (by simp [wakeUp])
    | cons x t ih =>
      intro h
      by_cases hx : x.id = id
      · refine ⟨⟨wakeUpdate cr x, ?_, ?_, rfl⟩, ?_⟩
        · simp [wakeUp, hx]
        · simp [wakeUpdate, hx]
        · simp [wakeUp, hx, wakeUpdate]
      · have h2 : (wakeUp id cr t).1 = true := by
          simpa [wakeUp, hx] using h
        obtain ⟨⟨y, hy, hyid, hysleep⟩, hsecond⟩ := ih h2
        refine ⟨⟨y, ?_, hyid, hysleep⟩, ?_⟩
        · simp only [wakeUp, if_neg hx]
          exact List.mem_cons_of_mem x hy
        · simp only [wakeUp, if_neg hx]
          simpa [wakeUp, hx] using hsecond
  
/-- Witness for C10: a successful release on a singleton list leaves the
(awake) entry visible and a second release still succeeds. -/
theorem wakeUp_preserves_entries_witness :
    (∃ x ∈ (wakeUp "a" (some "r") [wItemA]).2, x.id = "a" ∧ x.sleep = false) ∧
    (wakeUp "a" none (wakeUp "a" (some "r") [wItemA]).2).1 = true :=
  (wakeUp_preserves_entries "a" (some "r") none [wItemA]).2.2 rfl

/-! ## Proxy exchange: the single-fire guard of `proxyHandler`

One proxy exchange is modelled as a transition system over the guard
state the handler maintains (`timeoutTriggered`, the pending timer, the
Node `headersSent` flag) plus bookkeeping of the environment facts the
runtime guarantees: the upstream emits at most one `response`, none
after `destroy()` or after an `error`; the timer fires only while set
and not yet cleared.  `writes` counts how many times a response is
rendered to the original caller. -/

/-- Guard state of one proxy exchange. -/
structure ProxyState where
  timerActive : Bool
  timeoutTriggered : Bool
  headersSent : Bool
  destroyed : Bool
  responded : Bool
  errored : Bool
  writes : Nat
deriving DecidableEq, Repr

/-- State right after `httpModule.request(...)` returns and
`setTimeout` installs the per-rule timer. -/
def initProxyState : ProxyState :=
  { timerActive := true, timeoutTriggered := false, headersSent := false,
    destroyed := false, responded := false, errored := false, writes := 0 }

/-- The three asynchronous parties that can decide the exchange is
done: the upstream response callback, the per-rule timeout timer, and
the `error` handler of the upstream request. -/
inductive ProxyEvent where
  | response
  | timer
  | errorEv
deriving DecidableEq, Repr

/-- Node-runtime enabling conditions: a response callback cannot run
after `destroy()`, a second time, or after `error`; the timer fires only
while installed (it is cleared synchronously at the top of the response
and error callbacks). -/
def enabledEv (s : ProxyState) : ProxyEvent → Bool
  | .response => !s.destroyed && !s.responded && !s.errored
  | .timer => s.timerActive
  | .errorEv => true

/-- The handler bodies of `proxyHandler`.  `response`: clear the timer,
then render exactly once (either the 5xx fallback or the piped upstream
response).  `timer`: the timer is consumed; if headers are not yet sent,
set `timeoutTriggered`, destroy the upstream request and render (a
fallback or the 504).  `errorEv`: clear the timer; if the timeout
already fired, or headers are already sent, do nothing; otherwise render
(a fallback or the 502). -/
def execEv (s : ProxyState) : ProxyEvent → ProxyState
  | .response =>
    { s with
      timerActive := false
      responded := true
      headersSent := true
      writes := s.writes + 1 }
  | .timer =>
    if s.headersSent then { s with timerActive := false }
    else
      { s with
        timerActive := false
        timeoutTriggered := true
        destroyed := true
        headersSent := true
        writes := s.writes + 1 }
  | .errorEv =>
    if s.timeoutTriggered then { s with timerActive := false, errored := true }
    else if s.headersSent then { s with timerActive := false, errored := true }
    else
      { s with
        timerActive := false
        errored := true
        headersSent := true
        writes := s.writes + 1 }

/-- One scheduler step: a party that is not enabled cannot run. -/
def stepEv (s : ProxyState) (e : ProxyEvent) : ProxyState :=
  if enabledEv s e then execEv s e else s

/-- An arbitrary interleaving of the three parties. -/
def runEvents (s : ProxyState) (evs : List ProxyEvent) : ProxyState :=
  evs.foldl stepEv s

/-- The single-fire invariant: the exchange has been rendered exactly
once iff headers were sent, and headers can only have been sent by one
of the three parties having committed. -/
def ProxyInv (s : ProxyState) : Prop :=
  s.writes = (if s.headersSent then 1 else 0) ∧
  (s.headersSent = true → (s.responded = true ∨ s.destroyed = true ∨ s.errored = true))

theorem stepEv_inv (s : ProxyState) (e : ProxyEvent) (h : ProxyInv s) :
    ProxyInv (stepEv s e) := by
  obtain ⟨h1, h2⟩ := h
  cases e <;>
    cases hta : s.timerActive <;>
    cases hhs : s.headersSent <;>
    cases hre : s.responded <;>
    cases hde : s.destroyed <;>
    cases her : s.errored <;>
    cases hts : s.timeoutTriggered <;>
    simp_all [ProxyInv, stepEv, enabledEv, execEv]

theorem runEvents_inv (evs : List ProxyEvent) (s : ProxyState) (h : ProxyInv s) :
    ProxyInv (runEvents s evs) := by
  induction evs generalizing s with
  | nil => exact h
  | cons e t ih => exact ih (stepEv s e) (stepEv_inv s e h)

/-- **C5.** Under every interleaving of the upstream response callback,
the per-rule timeout timer and the upstream error handler, at most one
of them renders a response to the original caller: the response is
written exactly once when the headers-sent state is set and never
again, so a double-write never occurs. -/
theorem proxy_single_fire (evs : List ProxyEvent) :
    (runEvents initProxyState evs).writes ≤ 1 ∧
    (runEvents initProxyState evs).writes =
      (if (runEvents initProxyState evs).headersSent then 1 else 0) := by
  have h := runEvents_inv evs initProxyState (by constructor <;> simp [initProxyState])
  obtain ⟨h1, _⟩ := h
  refine ⟨?_, h1⟩
  rw [h1]
  by_cases hs : (runEvents initProxyState evs).headersSent = true <;> simp [hs]
